import Mathlib

/-!
Verification development for the PyRTL debugging-tools example and the
circuit-graph / simulation engine it exercises.

The repository's own sources only contain the example notebook
(`ipynb-examples/example4-debuggingtools.ipynb`), which builds circuits and
calls the engine (`pyrtl.probe`, `pyrtl.Simulation.step`,
`pyrtl.SimulationTrace`, `pyrtl.set_debug_mode`,
`Block.remove_wirevector`, ...).  The engine itself is not in the sources,
so the definitions below are modelled from the specification (spec.md):
the data model of §3 (WireVector, Net, Block, SimulationTrace), the
evaluator of §4.2, the tracer of §4.3, the probe registry of §4.4, the
provenance tracker of §4.5, and the error taxonomy of §7.

Machine integers are modelled as `Nat` with explicit reduction modulo
`2 ^ width` at every net output; fallible operations return `Except`.
-/

namespace PyRTL

/-- Modelled from the spec: the wire kinds of §3
(`kind ∈ {Input, Output, Register, Constant, Intermediate}`). -/
inductive WireKind where
  | inputK
  | outputK
  | registerK
  | constantK
  | intermediateK
deriving DecidableEq, Repr

/-- Modelled from the spec: a WireVector (§3) — stable identity, positive
bit width, kind, name, and an optional provenance record (the captured
call-frame list, empty when capture was disabled). -/
structure Wire where
  id : Nat
  width : Nat
  kind : WireKind
  name : String
  provenance : List String
deriving DecidableEq, Repr

/-- Modelled from the spec: the operation kinds of a Net (§3):
arithmetic (add, mul), slice/selection, the synthetic pass-through used by
probes (§4.4), the plain connection used by `<<=`, and register transfer. -/
inductive Op where
  | addOp
  | mulOp
  | selOp (lo : Nat)
  | passOp
  | connOp
  | regOp
deriving DecidableEq, Repr

/-- Modelled from the spec: a Net (§3) — one operation, an ordered list of
input wire ids, exactly one output wire id. -/
structure Net where
  op : Op
  inputs : List Nat
  output : Nat
deriving DecidableEq, Repr

/-- Modelled from the spec: a Block / WireGraph (§3) — the set of wires,
the set of nets (kept in the topological evaluation order computed once by
the Evaluator, §4.2), and a fresh-id counter for wire creation. -/
structure Block where
  wires : List Wire
  nets : List Net
  nextId : Nat
deriving DecidableEq, Repr

/-- Modelled from the spec (§7): a SimulationError — missing or
out-of-range input value at `step` time. -/
inductive SimErr where
  | simulationError (msg : String)
deriving DecidableEq, Repr

/-- Modelled from the spec (§7): a StructuralError — duplicate name,
foreign wire reference, width mismatch, dangling reference on removal. -/
inductive StructErr where
  | structuralError (msg : String)
deriving DecidableEq, Repr

/-- The raw (pre-truncation) value of an operation on its argument list. -/
def rawEval : Op → List Nat → Nat
  | .addOp, a :: b :: _ => a + b
  | .mulOp, a :: b :: _ => a * b
  | .selOp lo, a :: _ => a >>> lo
  | .passOp, a :: _ => a
  | .connOp, a :: _ => a
  | .regOp, a :: _ => a
  | _, _ => 0

/-- A net's simulated output value: the raw value reduced into the output
wire's declared width.  The width rules of §4.1 make this reduction lossless
for arithmetic nets; for a narrowing connection it is the documented
truncation of §9. -/
def netEval (op : Op) (args : List Nat) (w : Nat) : Nat :=
  rawEval op args % 2 ^ w

/-- Pointwise update of an environment (wire id → value). -/
def updFn (e : Nat → Nat) (i v : Nat) : Nat → Nat :=
  fun j => if j = i then v else e j

/-- Lookup in a string-keyed association list. -/
def lookupS {α : Type} (l : List (String × α)) (n : String) : Option α :=
  (l.find? (fun p => p.1 == n)).map (fun p => p.2)

/-- The declared width of the wire with a given id (0 if absent). -/
def widthOf (b : Block) (i : Nat) : Nat :=
  ((b.wires.find? (fun w => w.id == i)).map Wire.width).getD 0

/-- Modelled from the spec (§4.2, step 2 precondition): the environment at
the start of a cycle — Input wires take the supplied named value, Register
wires take the committed register state, everything else starts at 0 and is
produced by its net. -/
def initEnv (b : Block) (ins : List (String × Nat)) (regs : Nat → Nat) :
    Nat → Nat :=
  fun i =>
    match b.wires.find? (fun w => w.id == i) with
    | some w =>
      match w.kind with
      | .inputK => (lookupS ins w.name).getD 0
      | .registerK => regs i
      | _ => 0
    | none => 0

/-- Modelled from the spec (§4.2, step 2): evaluate the combinational nets
in the stored topological order; register-transfer nets are schedule
boundaries and are skipped (their outputs already hold the previous cycle's
committed value). -/
def evalNets (wof : Nat → Nat) : List Net → (Nat → Nat) → (Nat → Nat)
  | [], e => e
  | n :: rest, e =>
    if n.op = .regOp then evalNets wof rest e
    else
      evalNets wof rest
        (updFn e n.output (netEval n.op (n.inputs.map e) (wof n.output)))

/-- The full combinational environment of one cycle. -/
def cycleEnv (b : Block) (ins : List (String × Nat)) (regs : Nat → Nat) :
    Nat → Nat :=
  evalNets (widthOf b) b.nets (initEnv b ins regs)

/-- Modelled from the spec (§4.2, step 3): next-cycle register values,
computed from the register-transfer nets' current-cycle inputs. -/
def nextRegsF (wof : Nat → Nat) : List Net → (Nat → Nat) → (Nat → Nat) →
    (Nat → Nat)
  | [], _, regs => regs
  | n :: rest, env, regs =>
    nextRegsF wof rest env
      (if n.op = .regOp then
        updFn regs n.output (netEval n.op (n.inputs.map env) (wof n.output))
      else regs)

/-- Modelled from the spec (§4.2): run one cycle per entry of the input
list, returning the per-cycle combinational environments. -/
def runCycles (b : Block) : List (List (String × Nat)) → (Nat → Nat) →
    List (Nat → Nat)
  | [], _ => []
  | i :: rest, regs =>
    let env := cycleEnv b i regs
    env :: runCycles b rest (nextRegsF (widthOf b) b.nets env regs)

/-- Modelled from the spec (§4.4): `probe(wire, name?)` — returns the same
wire reference unmodified and, as a side effect, inserts a pass-through Net
of matching width from the target wire to a freshly created Output-kind
WireVector carrying `name` (or an auto-generated name).  `prov` is the
provenance record attached to the tap wire (empty when debug mode is off).
`tapWire` is the fresh Output-kind tap created by the probe. -/
def tapWire (b : Block) (w : Wire) (name : Option String)
    (prov : List String) : Wire :=
  ⟨b.nextId, w.width, .outputK,
   name.getD ("tmp_probe_" ++ toString b.nextId), prov⟩

/-- The probe insertion itself: the Block gains the tap wire and the
pass-through Net, and the tapped wire is handed back unmodified. -/
def probeB (b : Block) (w : Wire) (name : Option String)
    (prov : List String) : Block × Wire :=
  (⟨b.wires ++ [tapWire b w name prov],
    b.nets ++ [⟨.passOp, [w.id], b.nextId⟩], b.nextId + 1⟩,
   w)

/-- Structural well-formedness used by the transparency proof: every wire id
and every net endpoint is below the fresh-id counter. -/
def WFb (b : Block) : Bool :=
  b.wires.all (fun w => w.id < b.nextId) &&
    b.nets.all (fun n =>
      decide (n.output < b.nextId) && n.inputs.all (fun i => i < b.nextId))

/-- The list of wire ids of a Block. -/
def wireIds (b : Block) : List Nat :=
  b.wires.map Wire.id

/-- Whether some Net already produces the wire with the given id. -/
def hasProducer (b : Block) (i : Nat) : Bool :=
  b.nets.any (fun n => n.output == i)

/-- Modelled from the spec (§4.1 width table): the width rule of each
operation — addition gives `max(m, n) + 1` (carry headroom), multiplication
`m + n`, pass-through and register transfer preserve the width, selection
fits inside the operand, and a plain connection accepts any destination
width (the §9 narrowing policy: bit loss is the documented truncation). -/
def widthOk (op : Op) (inw : List Nat) (outw : Nat) : Bool :=
  match op, inw with
  | .addOp, [m, n] => outw == max m n + 1
  | .mulOp, [m, n] => outw == m + n
  | .selOp lo, [m] => decide (outw + lo ≤ m)
  | .passOp, [m] => outw == m
  | .regOp, [m] => outw == m
  | .connOp, [_] => true
  | _, _ => false

/-- Modelled from the spec (§4.1): `add_net(op, inputs, output)` — fails
with a StructuralError if an endpoint is foreign to the Block, if the output
already has a producing Net, or if the widths violate the operation's width
rule; otherwise appends the Net. -/
def add_net (b : Block) (op : Op) (inputs : List Nat) (output : Nat) :
    Except StructErr Block :=
  if ¬ (inputs.all (fun i => (wireIds b).contains i) &&
        (wireIds b).contains output) then
    .error (.structuralError "foreign wire reference")
  else if hasProducer b output then
    .error (.structuralError "output already has a producing net")
  else if widthOk op (inputs.map (widthOf b)) (widthOf b output) then
    .ok { b with nets := b.nets ++ [⟨op, inputs, output⟩] }
  else
    .error (.structuralError "width mismatch")

/-- Modelled from the spec (§4.1): `remove_wire(handle)` — fails with a
StructuralError if the wire is referenced by any Net's inputs; otherwise the
wire is removed from the Block. -/
def remove_wirevector (b : Block) (i : Nat) : Except StructErr Block :=
  if b.nets.any (fun n => n.inputs.contains i) then
    .error (.structuralError "wire is referenced by a net")
  else
    .ok { b with wires := b.wires.filter (fun w => w.id != i) }

/-- The Block as it stands after a `remove_wirevector` call: on failure the
offending mutation is rejected and the Block is unchanged (§7). -/
def removeK (b : Block) (i : Nat) : Block :=
  match remove_wirevector b i with
  | .ok b' => b'
  | .error _ => b

/-- Modelled from the spec (§3, §4.3): the simulator state next to the
Block — the committed register values and the SimulationTrace, a mapping
from watched wire name to the append-only sequence of sampled values. -/
structure SimState where
  regs : List (Nat × Nat)
  trace : List (String × List Nat)
deriving DecidableEq, Repr

/-- Lookup in a Nat-keyed association list, defaulting to 0. -/
def lookupN (l : List (Nat × Nat)) (k : Nat) : Nat :=
  ((l.find? (fun p => p.1 == k)).map (fun p => p.2)).getD 0

/-- Update of a Nat-keyed association list at an existing key. -/
def updAssoc (l : List (Nat × Nat)) (k v : Nat) : List (Nat × Nat) :=
  l.map (fun p => if p.1 = k then (k, v) else p)

/-- Modelled from the spec (§4.3): the wires watched by default — all
Input, Output and Register wires (probe taps are Output-kind wires). -/
def watched (b : Block) : List Wire :=
  b.wires.filter (fun w =>
    w.kind == .inputK || w.kind == .outputK || w.kind == .registerK)

/-- The initial simulator state: registers start at 0, every watched wire
has an empty trace sequence. -/
def initSimState (b : Block) : SimState :=
  ⟨(b.wires.filter (fun w => w.kind == .registerK)).map (fun w => (w.id, 0)),
   (watched b).map (fun w => (w.name, []))⟩

/-- Modelled from the spec (§4.2, step 1): every Input wire name must
appear in the supplied mapping and every value must fit the wire's declared
bit width. -/
def validInputs (b : Block) (ins : List (String × Nat)) : Bool :=
  b.wires.all (fun w =>
    (w.kind != .inputK) ||
      (match lookupS ins w.name with
       | some v => decide (v < 2 ^ w.width)
       | none => false))

/-- The sampled value of the wire carrying a given name (0 if absent). -/
def valByName (b : Block) (env : Nat → Nat) (n : String) : Nat :=
  ((b.wires.find? (fun w => w.name == n)).map (fun w => env w.id)).getD 0

/-- Register values committed for the next cycle, as an association list
updated from the register-transfer nets' current-cycle inputs. -/
def regsAfter (b : Block) (env : Nat → Nat) (regs : List (Nat × Nat)) :
    List (Nat × Nat) :=
  b.nets.foldl
    (fun r n =>
      if n.op = .regOp then
        updAssoc r n.output (netEval n.op (n.inputs.map env) (widthOf b n.output))
      else r)
    regs

/-- Modelled from the spec (§4.2): `step(named_inputs)` — validate the
inputs (SimulationError on a missing name or an out-of-range value, without
advancing any state), evaluate the combinational nets in topological order,
then atomically commit the next register values and append one sampled value
per watched wire to the trace. -/
def step (b : Block) (s : SimState) (ins : List (String × Nat)) :
    Except SimErr SimState :=
  if validInputs b ins then
    let env := cycleEnv b ins (lookupN s.regs)
    .ok ⟨regsAfter b env s.regs,
         s.trace.map (fun p => (p.1, p.2 ++ [valByName b env p.1]))⟩
  else
    .error (.simulationError "missing or out-of-range input value")

/-- The simulator state as it stands after a `step` call: a failed call
leaves the state exactly as it was (§5: never partially applied). -/
def stepK (b : Block) (s : SimState) (ins : List (String × Nat)) : SimState :=
  match step b s ins with
  | .ok s' => s'
  | .error _ => s

/-- Repeated `step` calls, stopping at the first failure. -/
def runSteps (b : Block) (s : SimState) :
    List (List (String × Nat)) → Except SimErr SimState
  | [] => .ok s
  | i :: rest =>
    match step b s i with
    | .ok s' => runSteps b s' rest
    | .error e => .error e

/-- Modelled from the spec (§6): the process-wide state — the working
Block together with the single global debug-mode boolean. -/
structure PState where
  block : Block
  debugMode : Bool
deriving DecidableEq, Repr

/-- The initial process state: an empty working Block and the debug-mode
flag at its default, false (§6). -/
def initPState : PState :=
  ⟨⟨[], [], 0⟩, false⟩

/-- Modelled from the spec (§6): the explicit toggle of the global
debug-mode flag (`pyrtl.set_debug_mode`). -/
def set_debug_mode (s : PState) (d : Bool) : PState :=
  { s with debugMode := d }

/-- Modelled from the spec (§4.1, §4.5): wire creation — fails on a
duplicate name; when debug mode is on, the ordered sequence of active call
frames (outermost first, supplied by the pluggable provenance hook of §9)
is attached to the new wire, otherwise the provenance record is empty. -/
def add_wire (s : PState) (frames : List String) (width : Nat)
    (kind : WireKind) (name : String) : PState × Option Wire :=
  if s.block.wires.any (fun w => w.name == name) then (s, none)
  else
    let w : Wire :=
      ⟨s.block.nextId, width, kind, name,
       if s.debugMode then frames else []⟩
    ({ s with
        block :=
          { s.block with
              wires := s.block.wires ++ [w],
              nextId := s.block.nextId + 1 } },
     some w)

/-- Modelled from the spec (§4.5): retrieval of the provenance record
attached to a wire (`WireVector.init_call_stack`), returned verbatim. -/
def init_call_stack (w : Wire) : List String :=
  w.provenance

/-- A graph-construction command, for reasoning about whole build
sessions: wire creation, net creation, probe insertion, and the explicit
debug-mode toggle. -/
inductive Cmd where
  | newWire (frames : List String) (width : Nat) (kind : WireKind)
      (name : String)
  | newNet (op : Op) (inputs : List Nat) (output : Nat)
  | probeCmd (frames : List String) (target : Nat) (name : Option String)
  | setDebug (d : Bool)
deriving DecidableEq, Repr

/-- Execute one construction command against the process state; a rejected
mutation (duplicate name, structural error, unknown probe target) leaves
the state unchanged (§7). -/
def execCmd (s : PState) : Cmd → PState
  | .newWire f wd k n => (add_wire s f wd k n).1
  | .newNet op ins out =>
    match add_net s.block op ins out with
    | .ok b => { s with block := b }
    | .error _ => s
  | .probeCmd f t nm =>
    match s.block.wires.find? (fun w => w.id == t) with
    | some w =>
      { s with
          block := (probeB s.block w nm (if s.debugMode then f else [])).1 }
    | none => s
  | .setDebug d => set_debug_mode s d

/-- Execute a list of construction commands in order. -/
def execCmds (s : PState) : List Cmd → PState
  | [] => s
  | c :: rest => execCmds (execCmd s c) rest

/-- Whether a command list contains no debug-mode toggle. -/
def noSetDebug : List Cmd → Bool
  | [] => true
  | Cmd.setDebug _ :: _ => false
  | _ :: rest => noSetDebug rest

/-- A wire with its provenance record dropped. -/
def eraseProv (w : Wire) : Wire :=
  { w with provenance := [] }

/-- A Block with every provenance record dropped. -/
def blockNoProv (b : Block) : Block :=
  { b with wires := b.wires.map eraseProv }

/-! ### The end-to-end scenario of §8

8-bit Inputs `in1`, `in2`; `add1 = add(in1, in2)` (9 bits, the width law);
`add2 = add(add1, in2)` (10 bits); Output `out` connected to `add2`; a
probe named `debug_out` on `add1`. -/

/-- The `add1` wire of the scenario. -/
def add1Wire : Wire :=
  ⟨2, 9, .intermediateK, "add1", []⟩

/-- The scenario Block before the probe is inserted. -/
def scenarioBase : Block :=
  { wires :=
      [⟨0, 8, .inputK, "in1", []⟩, ⟨1, 8, .inputK, "in2", []⟩,
       add1Wire, ⟨3, 10, .intermediateK, "add2", []⟩,
       ⟨4, 10, .outputK, "out", []⟩],
    nets := [⟨.addOp, [0, 1], 2⟩, ⟨.addOp, [2, 1], 3⟩, ⟨.connOp, [3], 4⟩],
    nextId := 5 }

/-- The scenario Block with the `debug_out` probe on `add1`. -/
def scenarioBlock : Block :=
  (probeB scenarioBase add1Wire (some "debug_out") []).1

/-- The scenario's step inputs: `in1 = 5`, `in2 = 7`. -/
def scenarioIns : List (String × Nat) :=
  [("in1", 5), ("in2", 7)]

/-- The result of the scenario's single `step` call. -/
def scenarioResult : Except SimErr SimState :=
  step scenarioBlock (initSimState scenarioBlock) scenarioIns

/-- The trace sequence of a named wire after the scenario's step. -/
def scenarioTrace (n : String) : Option (List Nat) :=
  match scenarioResult with
  | .ok s => (s.trace.find? (fun p => p.1 == n)).map (fun p => p.2)
  | .error _ => none

/-! ### Small concrete blocks used by witnesses -/

/-- A two-input demo block: 4-bit inputs `a`, `b` and an unproduced 5-bit
output `c`, for exercising `add_net`. -/
def demoAddB : Block :=
  { wires :=
      [⟨0, 4, .inputK, "a", []⟩, ⟨1, 4, .inputK, "b", []⟩,
       ⟨2, 5, .outputK, "c", []⟩],
    nets := [],
    nextId := 3 }

/-- `demoAddB` after a successful addition `add_net`. -/
def demoAddB' : Block :=
  { demoAddB with nets := [⟨.addOp, [0, 1], 2⟩] }

/-- A demo block with a 14-bit intermediate driving nothing yet and an
8-bit output, for the narrowing-connection witness. -/
def demoNarrowB : Block :=
  { wires :=
      [⟨0, 14, .intermediateK, "wide", []⟩, ⟨1, 8, .outputK, "out8", []⟩],
    nets := [],
    nextId := 2 }

/-- The input wire of the probe-transparency demo block. -/
def demoIn : Wire :=
  ⟨0, 4, .inputK, "a", []⟩

/-- The output wire of the probe-transparency demo block. -/
def demoOut : Wire :=
  ⟨1, 4, .outputK, "o", []⟩

/-- A one-input, one-output demo block for the probe-transparency witness. -/
def demoProbeB : Block :=
  { wires := [demoIn, demoOut],
    nets := [⟨.passOp, [0], 1⟩],
    nextId := 2 }

/-! ## Theorems -/

lemma add_net_ok_widthOk {b : Block} {op : Op} {ins : List Nat} {out : Nat}
    {b' : Block} (h : add_net b op ins out = Except.ok b') :
    widthOk op (ins.map (widthOf b)) (widthOf b out) = true := by
  unfold add_net at h
  split at h
  · exact Except.noConfusion h
  · split at h
    · exact Except.noConfusion h
    · split at h
      · assumption
      · exact Except.noConfusion h

/-- C6.  Probe identity: `probe(wire, name?)` returns the very same wire
reference, with identical identity, width, kind, name and provenance, so a
chained expression using the returned value is using the wire itself. -/
theorem probe_returns_same_wire (b : Block) (w : Wire) (name : Option String)
    (prov : List String) :
    (probeB b w name prov).2 = w ∧
      ((probeB b w name prov).2).id = w.id ∧
      ((probeB b w name prov).2).width = w.width :=
  ⟨rfl, rfl, rfl⟩

/-- C3.  End-to-end scenario of §8: one `step` with `in1 = 5`, `in2 = 7`
yields `add1 = 12` (the wire with id 2) and `out = 19` (id 4), the trace of
the `debug_out` probe holds `[12]`, the trace of `out` holds `[19]`, and
`trace[debug_out][0]` equals `trace[in1][0] + trace[in2][0] = 12`. -/
theorem end_to_end_scenario :
    cycleEnv scenarioBlock scenarioIns (fun _ => 0) 2 = 12
  ∧ cycleEnv scenarioBlock scenarioIns (fun _ => 0) 4 = 19
  ∧ scenarioTrace "debug_out" = some [12]
  ∧ scenarioTrace "out" = some [19]
  ∧ scenarioTrace "in1" = some [5] ∧ scenarioTrace "in2" = some [7]
  ∧ ((scenarioTrace "debug_out").getD []).headD 0
      = ((scenarioTrace "in1").getD []).headD 0
          + ((scenarioTrace "in2").getD []).headD 0 := by
  exact ⟨by decide, by decide, by decide, by decide, by decide, by decide,
    by decide⟩

/-- C2.  Width law for addition: a successful addition `add_net` with
operand widths `m`, `n` forces the output width `max m n + 1`, and within
that width an addition value never wraps — the modular reduction at the net
output is the identity on in-range operands. -/
theorem add_width_law :
    (∀ (b : Block) (i j o : Nat) (b' : Block),
        add_net b Op.addOp [i, j] o = Except.ok b' →
        widthOf b o = max (widthOf b i) (widthOf b j) + 1)
  ∧ (∀ (m n a c : Nat), a < 2 ^ m → c < 2 ^ n →
        netEval Op.addOp [a, c] (max m n + 1) = a + c) := by
  constructor
  · intro b i j o b' h
    have hw := add_net_ok_widthOk h
    simp only [List.map_cons, List.map_nil, widthOk, beq_iff_eq] at hw
    exact hw
  · intro m n a c ha hc
    have h1 : 2 ^ m ≤ 2 ^ max m n :=
      Nat.pow_le_pow_right (by norm_num) (le_max_left m n)
    have h2 : 2 ^ n ≤ 2 ^ max m n :=
      Nat.pow_le_pow_right (by norm_num) (le_max_right m n)
    have h3 : 2 ^ (max m n + 1) = 2 ^ max m n * 2 := pow_succ 2 (max m n)
    show (a + c) % 2 ^ (max m n + 1) = a + c
    exact Nat.mod_eq_of_lt (by omega)

/-- Witness for C2 at a concrete block and concrete values. -/
theorem add_width_law_witness :
    (add_net demoAddB Op.addOp [0, 1] 2 = Except.ok demoAddB'
      ∧ widthOf demoAddB 2 = max (widthOf demoAddB 0) (widthOf demoAddB 1) + 1)
  ∧ (3 < 2 ^ 2 ∧ 5 < 2 ^ 3 ∧ netEval Op.addOp [3, 5] (max 2 3 + 1) = 3 + 5) :=
  ⟨⟨rfl, add_width_law.1 demoAddB 0 1 2 demoAddB' rfl⟩,
   ⟨by decide, by decide, add_width_law.2 2 3 3 5 (by decide) (by decide)⟩⟩

/-- C10.  A narrowing Output connection is accepted: connecting a producing
wire wider than the declared width of an Output is no StructuralError, and
the Output's simulated value is the source value truncated into the declared
width — the Output carries only its declared number of bits. -/
theorem narrowing_output_accepted (b : Block) (src dst : Wire)
    (hs : (wireIds b).contains src.id = true)
    (hd : (wireIds b).contains dst.id = true)
    (hp : hasProducer b dst.id = false)
    (hn : dst.width < src.width) :
    (∃ b', add_net b Op.connOp [src.id] dst.id = Except.ok b')
  ∧ (∀ v, netEval Op.connOp [v] dst.width = v % 2 ^ dst.width
        ∧ netEval Op.connOp [v] dst.width < 2 ^ dst.width) := by
  constructor
  · refine ⟨{ b with nets := b.nets ++ [⟨.connOp, [src.id], dst.id⟩] }, ?_⟩
    have hs' : src.id ∈ wireIds b := by simpa using hs
    have hd' : dst.id ∈ wireIds b := by simpa using hd
    simp [add_net, hs', hd', hp, widthOk]
  · intro v
    constructor
    · rfl
    · exact Nat.mod_lt _ (Nat.pos_pow_of_pos _ (by norm_num))

/-- Witness for C10: a 14-bit wire driven into an 8-bit Output. -/
theorem narrowing_output_accepted_witness :
    ((wireIds demoNarrowB).contains 0 = true
      ∧ (wireIds demoNarrowB).contains 1 = true
      ∧ hasProducer demoNarrowB 1 = false ∧ 8 < 14)
  ∧ ((∃ b', add_net demoNarrowB Op.connOp [0] 1 = Except.ok b')
      ∧ (netEval Op.connOp [12345] 8 = 12345 % 2 ^ 8
          ∧ netEval Op.connOp [12345] 8 < 2 ^ 8)) :=
  ⟨⟨by decide, by decide, by decide, by decide⟩,
   ⟨(narrowing_output_accepted demoNarrowB
        ⟨0, 14, .intermediateK, "wide", []⟩ ⟨1, 8, .outputK, "out8", []⟩
        (by decide) (by decide) (by decide) (by decide)).1,
    (narrowing_output_accepted demoNarrowB
        ⟨0, 14, .intermediateK, "wide", []⟩ ⟨1, 8, .outputK, "out8", []⟩
        (by decide) (by decide) (by decide) (by decide)).2 12345⟩⟩

/-- C9.  Wire removal: `remove_wirevector` fails with a StructuralError
when the wire is referenced by some Net's inputs — and the Block stands
unchanged after the call — and succeeds when the wire is referenced by no
Net, after which the wire no longer belongs to the Block. -/
theorem remove_wire_spec (b : Block) (i : Nat) :
    ((∃ n ∈ b.nets, i ∈ n.inputs) →
        (∃ e, remove_wirevector b i = Except.error e) ∧ removeK b i = b)
  ∧ ((∀ n ∈ b.nets, i ∉ n.inputs ∧ n.output ≠ i) →
        ∃ b', remove_wirevector b i = Except.ok b' ∧ i ∉ wireIds b') := by
  constructor
  · intro h
    have hany : b.nets.any (fun n => n.inputs.contains i) = true := by
      rcases h with ⟨n, hn, hi⟩
      exact List.any_eq_true.2 ⟨n, hn, by simpa using hi⟩
    constructor
    · exact ⟨.structuralError "wire is referenced by a net", by
        unfold remove_wirevector
        rw [if_pos hany]⟩
    · unfold removeK remove_wirevector
      rw [if_pos hany]
  · intro h
    have hany : ¬ (b.nets.any (fun n => n.inputs.contains i) = true) := by
      intro hc
      rcases List.any_eq_true.1 hc with ⟨n, hn, hi⟩
      exact (h n hn).1 (by simpa using hi)
    refine ⟨{ b with wires := b.wires.filter (fun w => w.id != i) }, ?_, ?_⟩
    · unfold remove_wirevector
      rw [if_neg hany]
    · intro hmem
      rcases List.mem_map.1 hmem with ⟨w, hw, hwid⟩
      rcases List.mem_filter.1 hw with ⟨_, hne⟩
      exact (by simpa using hne : w.id ≠ i) hwid

/-- Witness for C9: wire 0 of the probe demo block is read by its net, so
removal fails and the block is unchanged; wire 2 of the add demo block is
referenced by no net, so removal succeeds and drops it. -/
theorem remove_wire_spec_witness :
    ((∃ n ∈ demoProbeB.nets, 0 ∈ n.inputs)
      ∧ (∃ e, remove_wirevector demoProbeB 0 = Except.error e)
      ∧ removeK demoProbeB 0 = demoProbeB)
  ∧ ((∀ n ∈ demoAddB.nets, 2 ∉ n.inputs ∧ n.output ≠ 2)
      ∧ ∃ b', remove_wirevector demoAddB 2 = Except.ok b' ∧ 2 ∉ wireIds b') :=
  ⟨⟨by decide, (remove_wire_spec demoProbeB 0).1 (by decide)⟩,
   ⟨by decide, (remove_wire_spec demoAddB 2).2 (by decide)⟩⟩

/-- C4.  Step failure atomicity: when some Input wire name is missing from
the supplied mapping, or some supplied value does not fit the named wire's
declared bit width, `step` fails with a SimulationError, and the state
after the call — register state and traced history — is exactly the state
before the call. -/
theorem step_failure_atomic (b : Block) (s : SimState)
    (ins : List (String × Nat))
    (h : ∃ w, w ∈ b.wires ∧ w.kind = WireKind.inputK ∧
        (lookupS ins w.name = none ∨
          ∃ v, lookupS ins w.name = some v ∧ 2 ^ w.width ≤ v)) :
    (∃ e, step b s ins = Except.error e) ∧ stepK b s ins = s := by
  have hv : ¬ (validInputs b ins = true) := by
    intro hall
    rcases h with ⟨w, hw, hk, hbad⟩
    have hthis := List.all_eq_true.1 hall w hw
    rw [hk] at hthis
    simp only [bne_self_eq_false, Bool.false_or] at hthis
    rcases hbad with hnone | ⟨v, hv', hge⟩
    · rw [hnone] at hthis
      exact Bool.noConfusion hthis
    · rw [hv'] at hthis
      simp only [decide_eq_true_eq] at hthis
      omega
  constructor
  · exact ⟨.simulationError "missing or out-of-range input value", by
      unfold step
      rw [if_neg hv]⟩
  · unfold stepK step
    rw [if_neg hv]

/-- Witness for C4: stepping the §8 scenario with `in2` missing fails and
leaves the fresh simulator state untouched. -/
theorem step_failure_atomic_witness :
    (∃ w, w ∈ scenarioBlock.wires ∧ w.kind = WireKind.inputK ∧
        (lookupS [("in1", 5)] w.name = none ∨
          ∃ v, lookupS [("in1", 5)] w.name = some v ∧ 2 ^ w.width ≤ v))
  ∧ (∃ e, step scenarioBlock (initSimState scenarioBlock) [("in1", 5)]
        = Except.error e)
  ∧ stepK scenarioBlock (initSimState scenarioBlock) [("in1", 5)]
      = initSimState scenarioBlock := by
  have h : ∃ w, w ∈ scenarioBlock.wires ∧ w.kind = WireKind.inputK ∧
      (lookupS [("in1", 5)] w.name = none ∨
        ∃ v, lookupS [("in1", 5)] w.name = some v ∧ 2 ^ w.width ≤ v) :=
    ⟨⟨1, 8, .inputK, "in2", []⟩, by decide, rfl, Or.inl (by decide)⟩
  have hmain := step_failure_atomic scenarioBlock
    (initSimState scenarioBlock) [("in1", 5)] h
  exact ⟨h, hmain.1, hmain.2⟩

/-- C8.  Provenance capture and retrieval: with debug mode on, wire
creation attaches the ordered call-frame sequence supplied by the capture
hook (outermost frame first) to the new wire, and `init_call_stack` returns
exactly the stored sequence. -/
theorem provenance_capture (s : PState) (frames : List String) (width : Nat)
    (kind : WireKind) (name : String) (w : Wire)
    (hdbg : s.debugMode = true)
    (hw : (add_wire s frames width kind name).2 = some w) :
    init_call_stack w = frames ∧ init_call_stack w = w.provenance := by
  refine ⟨?_, rfl⟩
  unfold add_wire at hw
  rw [hdbg] at hw
  simp only [if_true] at hw
  split at hw
  · exact Option.noConfusion hw
  · have hw' := Option.some.inj hw
    subst hw'
    rfl

/-- Witness for C8: creating a wire with debug mode on attaches the two
supplied frames. -/
theorem provenance_capture_witness :
    (PState.mk ⟨[], [], 0⟩ true).debugMode = true
  ∧ (add_wire ⟨⟨[], [], 0⟩, true⟩ ["outer", "inner"] 4 WireKind.inputK "a").2
      = some ⟨0, 4, WireKind.inputK, "a", ["outer", "inner"]⟩
  ∧ init_call_stack (⟨0, 4, WireKind.inputK, "a", ["outer", "inner"]⟩ : Wire)
      = ["outer", "inner"] :=
  ⟨rfl, rfl,
   (provenance_capture ⟨⟨[], [], 0⟩, true⟩ ["outer", "inner"] 4
      WireKind.inputK "a" ⟨0, 4, WireKind.inputK, "a", ["outer", "inner"]⟩
      rfl rfl).1⟩

lemma step_ok_trace {b : Block} {s : SimState} {i : List (String × Nat)}
    {s' : SimState} (h : step b s i = Except.ok s') :
    s'.trace = s.trace.map (fun p =>
      (p.1, p.2 ++ [valByName b (cycleEnv b i (lookupN s.regs)) p.1])) := by
  unfold step at h
  split at h
  · have h' := Except.ok.inj h
    rw [← h']
  · exact Except.noConfusion h

lemma runSteps_ok_trace (b : Block) :
    ∀ (inss : List (List (String × Nat))) (s s' : SimState),
      runSteps b s inss = Except.ok s' →
      ∀ p ∈ s'.trace, ∃ q ∈ s.trace,
        q.1 = p.1 ∧ p.2.length = q.2.length + inss.length := by
  intro inss
  induction inss with
  | nil =>
    intro s s' h p hp
    have h' := Except.ok.inj h
    subst h'
    exact ⟨p, hp, rfl, rfl⟩
  | cons i rest ih =>
    intro s s' h p hp
    unfold runSteps at h
    revert h
    split
    · intro h
      rename_i s1 hs1
      rcases ih s1 s' h p hp with ⟨q1, hq1, hname, hlen⟩
      rw [step_ok_trace hs1] at hq1
      rcases List.mem_map.1 hq1 with ⟨q, hq, hqeq⟩
      refine ⟨q, hq, ?_, ?_⟩
      · rw [← hqeq] at hname
        exact hname
      · rw [← hqeq] at hlen
        simp only [List.length_append, List.length_cons, List.length_nil]
          at hlen
        simp only [List.length_cons]
        omega
    · intro h
      exact Except.noConfusion h

/-- C5.  Trace length invariant: a successful `step` replaces every watched
wire's trace sequence by that same sequence with exactly one sampled value
appended (so earlier entries are never removed or rewritten), and after `N`
successful `step` calls from the initial simulator state every watched
wire's trace sequence has length exactly `N`. -/
theorem trace_length_invariant :
    (∀ (b : Block) (s : SimState) (i : List (String × Nat)) (s' : SimState),
        step b s i = Except.ok s' →
        s'.trace = s.trace.map (fun p =>
          (p.1, p.2 ++ [valByName b (cycleEnv b i (lookupN s.regs)) p.1])))
  ∧ (∀ (b : Block) (inss : List (List (String × Nat))) (s' : SimState),
        runSteps b (initSimState b) inss = Except.ok s' →
        s'.trace.map Prod.fst = (watched b).map Wire.name
          ∧ ∀ p ∈ s'.trace, p.2.length = inss.length) := by
  constructor
  · intro b s i s' h
    exact step_ok_trace h
  · intro b inss s' h
    have hkeys : ∀ (l : List (List (String × Nat))) (s s' : SimState),
        runSteps b s l = Except.ok s' →
        s'.trace.map Prod.fst = s.trace.map Prod.fst := by
      intro l
      induction l with
      | nil =>
        intro s s' h'
        have h'' := Except.ok.inj h'
        subst h''
        rfl
      | cons i rest ih =>
        intro s s' h'
        unfold runSteps at h'
        revert h'
        split
        · intro h'
          rename_i s1 hs1
          rw [ih s1 s' h', step_ok_trace hs1, List.map_map]
          rfl
        · intro h'
          exact Except.noConfusion h'
    constructor
    · rw [hkeys inss (initSimState b) s' h]
      show ((watched b).map (fun w => (w.name, ([] : List Nat)))).map Prod.fst
        = (watched b).map Wire.name
      rw [List.map_map]
      rfl
    · intro p hp
      rcases runSteps_ok_trace b inss (initSimState b) s' h p hp with
        ⟨q, hq, _, hlen⟩
      have hq2 : q.2 = [] := by
        rcases List.mem_map.1 hq with ⟨w, _, hweq⟩
        rw [← hweq]
      rw [hq2] at hlen
      simpa using hlen

/-- Witness for C5: two successful steps of the §8 scenario leave every
watched wire's trace at length 2. -/
theorem trace_length_invariant_witness :
    (step scenarioBlock (initSimState scenarioBlock) scenarioIns
        = Except.ok (stepK scenarioBlock (initSimState scenarioBlock)
            scenarioIns)
      ∧ (stepK scenarioBlock (initSimState scenarioBlock)
            scenarioIns).trace
          = (initSimState scenarioBlock).trace.map (fun p =>
              (p.1, p.2 ++ [valByName scenarioBlock
                (cycleEnv scenarioBlock scenarioIns
                  (lookupN (initSimState scenarioBlock).regs)) p.1])))
  ∧ (∃ s', runSteps scenarioBlock (initSimState scenarioBlock)
        [scenarioIns, scenarioIns] = Except.ok s'
      ∧ s'.trace.map Prod.fst = (watched scenarioBlock).map Wire.name
      ∧ ∀ p ∈ s'.trace, p.2.length = 2) := by
  constructor
  · constructor
    · rfl
    · exact trace_length_invariant.1 scenarioBlock
        (initSimState scenarioBlock) scenarioIns _ rfl
  · refine ⟨stepK scenarioBlock (stepK scenarioBlock
        (initSimState scenarioBlock) scenarioIns) scenarioIns, rfl, ?_⟩
    have hmain := trace_length_invariant.2 scenarioBlock
      [scenarioIns, scenarioIns] _ (rfl :
        runSteps scenarioBlock (initSimState scenarioBlock)
          [scenarioIns, scenarioIns] = Except.ok (stepK scenarioBlock
            (stepK scenarioBlock (initSimState scenarioBlock) scenarioIns)
            scenarioIns))
    exact ⟨hmain.1, fun p hp => hmain.2 p hp⟩

/-! ### Probe transparency -/

lemma WFb_wires_lt {b : Block} (h : WFb b = true) :
    ∀ w ∈ b.wires, w.id < b.nextId := by
  intro w hw
  unfold WFb at h
  rw [Bool.and_eq_true] at h
  simpa using List.all_eq_true.1 h.1 w hw

lemma WFb_nets_out {b : Block} (h : WFb b = true) :
    ∀ n ∈ b.nets, n.output < b.nextId := by
  intro n hn
  unfold WFb at h
  rw [Bool.and_eq_true] at h
  have h3 := List.all_eq_true.1 h.2 n hn
  rw [Bool.and_eq_true] at h3
  simpa using h3.1

lemma WFb_nets_in {b : Block} (h : WFb b = true) :
    ∀ n ∈ b.nets, ∀ i ∈ n.inputs, i < b.nextId := by
  intro n hn i hi
  unfold WFb at h
  rw [Bool.and_eq_true] at h
  have h3 := List.all_eq_true.1 h.2 n hn
  rw [Bool.and_eq_true] at h3
  simpa using List.all_eq_true.1 h3.2 i hi

lemma find?_append_last {α : Type} {p : α → Bool} {l1 : List α}
    (h : l1.find? p = none) (l2 : List α) :
    (l1 ++ l2).find? p = l2.find? p := by
  induction l1 with
  | nil => rfl
  | cons a l ih =>
    cases ha : p a with
    | true => simp [List.find?, ha] at h
    | false =>
      simp only [List.find?, ha] at h
      simp only [List.cons_append, List.find?, ha]
      exact ih h

lemma find?_id_append_tap (l : List Wire) (tap : Wire) (i : Nat)
    (hi : tap.id ≠ i) :
    (l ++ [tap]).find? (fun w => w.id == i)
      = l.find? (fun w => w.id == i) := by
  induction l with
  | nil =>
    have htap : (tap.id == i) = false := by simpa using hi
    simp [List.find?, htap]
  | cons a l ih =>
    cases ha : (a.id == i) with
    | true => simp [List.find?, ha]
    | false => simp [List.find?, ha, ih]

lemma probe_wires (b : Block) (w : Wire) (nm : Option String)
    (prov : List String) :
    (probeB b w nm prov).1.wires = b.wires ++ [tapWire b w nm prov] := rfl

lemma probe_nets (b : Block) (w : Wire) (nm : Option String)
    (prov : List String) :
    (probeB b w nm prov).1.nets
      = b.nets ++ [⟨.passOp, [w.id], b.nextId⟩] := rfl

lemma widthOf_probe (b : Block) (w : Wire) (nm : Option String)
    (prov : List String) (i : Nat) (hi : i ≠ b.nextId) :
    widthOf (probeB b w nm prov).1 i = widthOf b i := by
  unfold widthOf
  rw [probe_wires, find?_id_append_tap]
  exact fun hc => hi hc.symm

lemma initEnv_probe (b : Block) (w : Wire) (nm : Option String)
    (prov : List String) (hwf : WFb b = true) (ins : List (String × Nat))
    (regs : Nat → Nat) :
    initEnv (probeB b w nm prov).1 ins regs = initEnv b ins regs := by
  funext i
  unfold initEnv
  rw [probe_wires]
  by_cases hi : i = b.nextId
  · subst hi
    have hnone : b.wires.find? (fun w' => w'.id == b.nextId) = none := by
      apply List.find?_eq_none.2
      intro x hx
      have := WFb_wires_lt hwf x hx
      simp only [beq_iff_eq]
      omega
    rw [hnone, find?_append_last hnone]
    simp [List.find?, tapWire]
  · rw [find?_id_append_tap _ _ _ (fun hc => hi hc.symm)]

lemma evalNets_nil (wof : Nat → Nat) (e : Nat → Nat) :
    evalNets wof [] e = e := rfl

lemma evalNets_cons (wof : Nat → Nat) (n : Net) (rest : List Net)
    (e : Nat → Nat) :
    evalNets wof (n :: rest) e =
      (if n.op = .regOp then evalNets wof rest e
       else evalNets wof rest
        (updFn e n.output (netEval n.op (n.inputs.map e) (wof n.output)))) :=
  rfl

lemma evalNets_congr (wof1 wof2 : Nat → Nat) :
    ∀ (nets : List Net) (e : Nat → Nat),
      (∀ n ∈ nets, wof1 n.output = wof2 n.output) →
      evalNets wof1 nets e = evalNets wof2 nets e := by
  intro nets
  induction nets with
  | nil => intro e _; rfl
  | cons n rest ih =>
    intro e h
    rw [evalNets_cons, evalNets_cons]
    by_cases hop : n.op = .regOp
    · rw [if_pos hop, if_pos hop]
      exact ih e (fun m hm => h m (List.mem_cons_of_mem _ hm))
    · rw [if_neg hop, if_neg hop, h n (List.mem_cons_self _ _)]
      exact ih _ (fun m hm => h m (List.mem_cons_of_mem _ hm))

lemma evalNets_append_one (wof : Nat → Nat) (t : Net)
    (hop : ¬ t.op = .regOp) :
    ∀ (nets : List Net) (e : Nat → Nat),
      evalNets wof (nets ++ [t]) e =
        updFn (evalNets wof nets e) t.output
          (netEval t.op (t.inputs.map (evalNets wof nets e))
            (wof t.output)) := by
  intro nets
  induction nets with
  | nil =>
    intro e
    show evalNets wof [t] e = _
    rw [evalNets_cons, if_neg hop]
    rfl
  | cons n rest ih =>
    intro e
    rw [List.cons_append, evalNets_cons, evalNets_cons]
    by_cases hn : n.op = .regOp
    · rw [if_pos hn, if_pos hn]
      exact ih e
    · rw [if_neg hn, if_neg hn]
      exact ih _

lemma nextRegsF_nil (wof env regs : Nat → Nat) :
    nextRegsF wof [] env regs = regs := rfl

lemma nextRegsF_cons (wof : Nat → Nat) (n : Net) (rest : List Net)
    (env regs : Nat → Nat) :
    nextRegsF wof (n :: rest) env regs =
      nextRegsF wof rest env
        (if n.op = .regOp then
          updFn regs n.output (netEval n.op (n.inputs.map env) (wof n.output))
        else regs) := rfl

lemma nextRegsF_append (wof : Nat → Nat) (l2 : List Net) :
    ∀ (l1 : List Net) (env regs : Nat → Nat),
      nextRegsF wof (l1 ++ l2) env regs
        = nextRegsF wof l2 env (nextRegsF wof l1 env regs) := by
  intro l1
  induction l1 with
  | nil => intro env regs; rfl
  | cons n rest ih =>
    intro env regs
    rw [List.cons_append, nextRegsF_cons, nextRegsF_cons, ih]

lemma map_congr_mem {α β : Type} (f g : α → β) :
    ∀ (l : List α), (∀ x ∈ l, f x = g x) → l.map f = l.map g := by
  intro l
  induction l with
  | nil => intro _; rfl
  | cons a l ih =>
    intro h
    rw [List.map_cons, List.map_cons, h a (List.mem_cons_self _ _),
      ih (fun x hx => h x (List.mem_cons_of_mem _ hx))]

lemma nextRegsF_congr (wof1 wof2 env1 env2 : Nat → Nat) :
    ∀ (nets : List Net) (regs : Nat → Nat),
      (∀ n ∈ nets, n.op = .regOp →
        wof1 n.output = wof2 n.output ∧
          n.inputs.map env1 = n.inputs.map env2) →
      nextRegsF wof1 nets env1 regs = nextRegsF wof2 nets env2 regs := by
  intro nets
  induction nets with
  | nil => intro regs _; rfl
  | cons n rest ih =>
    intro regs h
    rw [nextRegsF_cons, nextRegsF_cons]
    by_cases hop : n.op = .regOp
    · rcases h n (List.mem_cons_self _ _) hop with ⟨hwof, hmap⟩
      rw [if_pos hop, if_pos hop, hwof, hmap]
      exact ih _ (fun m hm => h m (List.mem_cons_of_mem _ hm))
    · rw [if_neg hop, if_neg hop]
      exact ih _ (fun m hm => h m (List.mem_cons_of_mem _ hm))

lemma cycleEnv_probe (b : Block) (w : Wire) (nm : Option String)
    (prov : List String) (hwf : WFb b = true) (ins : List (String × Nat))
    (regs : Nat → Nat) :
    ∃ v, cycleEnv (probeB b w nm prov).1 ins regs
      = updFn (cycleEnv b ins regs) b.nextId v := by
  unfold cycleEnv
  rw [probe_nets, initEnv_probe b w nm prov hwf]
  rw [evalNets_append_one _ _ (by simp : ¬ (Net.mk .passOp [w.id] b.nextId).op = .regOp)]
  have hcong : evalNets (widthOf (probeB b w nm prov).1) b.nets
      (initEnv b ins regs) = evalNets (widthOf b) b.nets
      (initEnv b ins regs) := by
    apply evalNets_congr
    intro n hn
    exact widthOf_probe b w nm prov n.output
      (by have := WFb_nets_out hwf n hn; omega)
  rw [hcong]
  exact ⟨_, rfl⟩

lemma nextRegs_probe (b : Block) (w : Wire) (nm : Option String)
    (prov : List String) (hwf : WFb b = true) (ins : List (String × Nat))
    (regs : Nat → Nat) :
    nextRegsF (widthOf (probeB b w nm prov).1) (probeB b w nm prov).1.nets
        (cycleEnv (probeB b w nm prov).1 ins regs) regs
      = nextRegsF (widthOf b) b.nets (cycleEnv b ins regs) regs := by
  rcases cycleEnv_probe b w nm prov hwf ins regs with ⟨v, hv⟩
  rw [probe_nets, hv, nextRegsF_append, nextRegsF_cons,
    if_neg (by simp : ¬ (Net.mk .passOp [w.id] b.nextId).op = .regOp),
    nextRegsF_nil]
  apply nextRegsF_congr
  intro n hn _
  constructor
  · exact widthOf_probe b w nm prov n.output
      (by have := WFb_nets_out hwf n hn; omega)
  · apply map_congr_mem
    intro x hx
    have hxlt := WFb_nets_in hwf n hn x hx
    unfold updFn
    rw [if_neg (by omega)]

lemma runCycles_cons (b : Block) (i : List (String × Nat))
    (rest : List (List (String × Nat))) (regs : Nat → Nat) :
    runCycles b (i :: rest) regs =
      cycleEnv b i regs ::
        runCycles b rest
          (nextRegsF (widthOf b) b.nets (cycleEnv b i regs) regs) := rfl

lemma runCycles_probe (b : Block) (w : Wire) (nm : Option String)
    (prov : List String) (hwf : WFb b = true) :
    ∀ (ins : List (List (String × Nat))) (regs : Nat → Nat) (k j : Nat),
      j ≠ b.nextId →
      ((runCycles (probeB b w nm prov).1 ins regs)[k]?).map (fun e => e j)
        = ((runCycles b ins regs)[k]?).map (fun e => e j) := by
  intro ins
  induction ins with
  | nil => intro regs k j _; rfl
  | cons i rest ih =>
    intro regs k j hj
    rw [runCycles_cons, runCycles_cons]
    cases k with
    | zero =>
      rcases cycleEnv_probe b w nm prov hwf i regs with ⟨v, hv⟩
      simp only [List.getElem?_cons_zero, Option.map_some']
      rw [hv]
      unfold updFn
      rw [if_neg hj]
    | succ k' =>
      simp only [List.getElem?_cons_succ]
      rw [nextRegs_probe b w nm prov hwf i regs]
      exact ih _ k' j hj

/-- C1.  Probe transparency: inserting a probe on any wire of a
well-formed Block leaves the simulated value of every original Output wire
bit-identical on every cycle. -/
theorem probe_transparency (b : Block) (w : Wire) (nm : Option String)
    (prov : List String) (hwf : WFb b = true) (hw : w ∈ b.wires)
    (ins : List (List (String × Nat))) (regs : Nat → Nat) (k : Nat)
    (o : Wire) (ho : o ∈ b.wires) (hok : o.kind = WireKind.outputK) :
    ((runCycles (probeB b w nm prov).1 ins regs)[k]?).map (fun e => e o.id)
      = ((runCycles b ins regs)[k]?).map (fun e => e o.id) := by
  have hlt := WFb_wires_lt hwf o ho
  exact runCycles_probe b w nm prov hwf ins regs k o.id (by omega)

/-- Witness for C1: probing the input of the 1-cycle demo block leaves its
output's simulated value unchanged. -/
theorem probe_transparency_witness :
    (WFb demoProbeB = true ∧ demoIn ∈ demoProbeB.wires
      ∧ demoOut ∈ demoProbeB.wires ∧ demoOut.kind = WireKind.outputK)
  ∧ ((runCycles (probeB demoProbeB demoIn (some "p") []).1 [[("a", 3)]]
        (fun _ => 0))[0]?).map (fun e => e demoOut.id)
      = ((runCycles demoProbeB [[("a", 3)]] (fun _ => 0))[0]?).map
          (fun e => e demoOut.id) :=
  ⟨⟨by decide, by decide, by decide, rfl⟩,
   probe_transparency demoProbeB demoIn (some "p") [] (by decide)
     (by decide) [[("a", 3)]] (fun _ => 0) 0 demoOut (by decide) rfl⟩

/-! ### Debug-mode noninterference -/

lemma blockNoProv_wires (b : Block) :
    (blockNoProv b).wires = b.wires.map eraseProv := rfl

lemma blockNoProv_nets (b : Block) : (blockNoProv b).nets = b.nets := rfl

lemma blockNoProv_nextId (b : Block) :
    (blockNoProv b).nextId = b.nextId := rfl

lemma find?_map_eraseProv (l : List Wire) (i : Nat) :
    (l.map eraseProv).find? (fun w => w.id == i)
      = (l.find? (fun w => w.id == i)).map eraseProv := by
  induction l with
  | nil => rfl
  | cons a l ih =>
    cases ha : (a.id == i) with
    | true => simp [List.find?, eraseProv, ha]
    | false => simp [List.find?, eraseProv, ha, ih]

lemma widthOf_noProv (b : Block) (i : Nat) :
    widthOf (blockNoProv b) i = widthOf b i := by
  unfold widthOf
  rw [blockNoProv_wires, find?_map_eraseProv]
  cases b.wires.find? (fun w => w.id == i) with
  | none => rfl
  | some w => rfl

lemma initEnv_noProv (b : Block) (ins : List (String × Nat))
    (regs : Nat → Nat) :
    initEnv (blockNoProv b) ins regs = initEnv b ins regs := by
  funext i
  unfold initEnv
  rw [blockNoProv_wires, find?_map_eraseProv]
  cases b.wires.find? (fun w => w.id == i) with
  | none => rfl
  | some w => rfl

lemma cycleEnv_noProv (b : Block) (ins : List (String × Nat))
    (regs : Nat → Nat) :
    cycleEnv (blockNoProv b) ins regs = cycleEnv b ins regs := by
  unfold cycleEnv
  rw [blockNoProv_nets, initEnv_noProv,
    (funext (widthOf_noProv b) : widthOf (blockNoProv b) = widthOf b)]

lemma runCycles_noProv (b : Block) :
    ∀ (ins : List (List (String × Nat))) (regs : Nat → Nat),
      runCycles (blockNoProv b) ins regs = runCycles b ins regs := by
  intro ins
  induction ins with
  | nil => intro regs; rfl
  | cons i rest ih =>
    intro regs
    rw [runCycles_cons, runCycles_cons, cycleEnv_noProv, blockNoProv_nets,
      (funext (widthOf_noProv b) : widthOf (blockNoProv b) = widthOf b), ih]

lemma runCycles_of_noProv_eq {b1 b2 : Block}
    (h : blockNoProv b1 = blockNoProv b2) (ins : List (List (String × Nat)))
    (regs : Nat → Nat) : runCycles b1 ins regs = runCycles b2 ins regs := by
  rw [← runCycles_noProv b1 ins regs, ← runCycles_noProv b2 ins regs, h]

lemma wireIds_noProv (b : Block) : wireIds (blockNoProv b) = wireIds b := by
  unfold wireIds
  rw [blockNoProv_wires, List.map_map]
  rfl

lemma hasProducer_noProv (b : Block) (i : Nat) :
    hasProducer (blockNoProv b) i = hasProducer b i := rfl

lemma add_net_noProv (b : Block) (op : Op) (ins : List Nat) (out : Nat) :
    add_net (blockNoProv b) op ins out
      = Except.map blockNoProv (add_net b op ins out) := by
  unfold add_net
  rw [wireIds_noProv,
    (funext (widthOf_noProv b) : widthOf (blockNoProv b) = widthOf b),
    hasProducer_noProv]
  split
  · rfl
  · split
    · rfl
    · split
      · rfl
      · rfl

lemma eraseProv_tapWire (b : Block) (w : Wire) (nm : Option String)
    (prov : List String) :
    eraseProv (tapWire b w nm prov)
      = ⟨b.nextId, w.width, .outputK,
         nm.getD ("tmp_probe_" ++ toString b.nextId), []⟩ := rfl

lemma execCmd_noProv (s1 s2 : PState) (c : Cmd)
    (h : blockNoProv s1.block = blockNoProv s2.block)
    (hc : ∀ d, c ≠ Cmd.setDebug d) :
    blockNoProv (execCmd s1 c).block = blockNoProv (execCmd s2 c).block := by
  have hw : s1.block.wires.map eraseProv = s2.block.wires.map eraseProv := by
    have hcw := congrArg Block.wires h
    rwa [blockNoProv_wires, blockNoProv_wires] at hcw
  have hn : s1.block.nets = s2.block.nets := by
    have hcn := congrArg Block.nets h
    rwa [blockNoProv_nets, blockNoProv_nets] at hcn
  have hi : s1.block.nextId = s2.block.nextId := by
    have hci := congrArg Block.nextId h
    rwa [blockNoProv_nextId, blockNoProv_nextId] at hci
  cases c with
  | setDebug d => exact absurd rfl (hc d)
  | newWire f wd k n =>
    have hany : s1.block.wires.any (fun w => w.name == n)
        = s2.block.wires.any (fun w => w.name == n) := by
      have e1 : (s1.block.wires.map eraseProv).any (fun w => w.name == n)
          = s1.block.wires.any (fun w => w.name == n) := by
        rw [List.any_map]
        rfl
      have e2 : (s2.block.wires.map eraseProv).any (fun w => w.name == n)
          = s2.block.wires.any (fun w => w.name == n) := by
        rw [List.any_map]
        rfl
      rw [← e1, ← e2, hw]
    show blockNoProv (add_wire s1 f wd k n).1.block
      = blockNoProv (add_wire s2 f wd k n).1.block
    unfold add_wire
    rw [hany]
    split
    · exact h
    · show Block.mk
        ((s1.block.wires ++
          [(⟨s1.block.nextId, wd, k, n,
            if s1.debugMode = true then f else []⟩ : Wire)]).map eraseProv)
        s1.block.nets (s1.block.nextId + 1)
        = Block.mk
        ((s2.block.wires ++
          [(⟨s2.block.nextId, wd, k, n,
            if s2.debugMode = true then f else []⟩ : Wire)]).map eraseProv)
        s2.block.nets (s2.block.nextId + 1)
      rw [List.map_append, List.map_append, List.map_cons, List.map_cons,
        List.map_nil, hw, hn, hi]
      rfl
  | newNet op i o =>
    have key : Except.map blockNoProv (add_net s1.block op i o)
        = Except.map blockNoProv (add_net s2.block op i o) := by
      rw [← add_net_noProv, ← add_net_noProv, h]
    cases e1 : add_net s1.block op i o with
    | ok b1' =>
      cases e2 : add_net s2.block op i o with
      | ok b2' =>
        rw [e1, e2] at key
        simp only [Except.map] at key
        simp only [execCmd, e1, e2]
        exact Except.ok.inj key
      | error e =>
        rw [e1, e2] at key
        simp only [Except.map] at key
        exact Except.noConfusion key
    | error e =>
      cases e2 : add_net s2.block op i o with
      | ok b2' =>
        rw [e1, e2] at key
        simp only [Except.map] at key
        exact Except.noConfusion key
      | error e' =>
        simp only [execCmd, e1, e2]
        exact h
  | probeCmd f t nm =>
    have hfind : (s1.block.wires.find? (fun w => w.id == t)).map eraseProv
        = (s2.block.wires.find? (fun w => w.id == t)).map eraseProv := by
      rw [← find?_map_eraseProv, ← find?_map_eraseProv, hw]
    cases e1 : s1.block.wires.find? (fun w => w.id == t) with
    | none =>
      cases e2 : s2.block.wires.find? (fun w => w.id == t) with
      | none =>
        simp only [execCmd, e1, e2]
        exact h
      | some w2 =>
        rw [e1, e2] at hfind
        exact Option.noConfusion hfind
    | some w1 =>
      cases e2 : s2.block.wires.find? (fun w => w.id == t) with
      | none =>
        rw [e1, e2] at hfind
        exact Option.noConfusion hfind
      | some w2 =>
        rw [e1, e2] at hfind
        have hep : eraseProv w1 = eraseProv w2 := Option.some.inj hfind
        have hid0 := congrArg Wire.id hep
        have hid : w1.id = w2.id := hid0
        have hwd0 := congrArg Wire.width hep
        have hwd : w1.width = w2.width := hwd0
        simp only [execCmd, e1, e2]
        show Block.mk
          ((s1.block.wires ++
            [tapWire s1.block w1 nm
              (if s1.debugMode = true then f else [])]).map eraseProv)
          (s1.block.nets ++ [⟨.passOp, [w1.id], s1.block.nextId⟩])
          (s1.block.nextId + 1)
          = Block.mk
          ((s2.block.wires ++
            [tapWire s2.block w2 nm
              (if s2.debugMode = true then f else [])]).map eraseProv)
          (s2.block.nets ++ [⟨.passOp, [w2.id], s2.block.nextId⟩])
          (s2.block.nextId + 1)
        rw [List.map_append, List.map_append, List.map_cons, List.map_cons,
          List.map_nil, eraseProv_tapWire, eraseProv_tapWire, hw, hn, hi,
          hid, hwd]

lemma execCmds_noProv :
    ∀ (cmds : List Cmd) (s1 s2 : PState), noSetDebug cmds = true →
      blockNoProv s1.block = blockNoProv s2.block →
      blockNoProv (execCmds s1 cmds).block
        = blockNoProv (execCmds s2 cmds).block := by
  intro cmds
  induction cmds with
  | nil => intro s1 s2 _ h; exact h
  | cons c rest ih =>
    intro s1 s2 hns h
    cases c with
    | setDebug d => simp [noSetDebug] at hns
    | newWire f wd k n =>
      exact ih _ _ hns
        (execCmd_noProv s1 s2 _ h (fun d h' => Cmd.noConfusion h'))
    | newNet op i o =>
      exact ih _ _ hns
        (execCmd_noProv s1 s2 _ h (fun d h' => Cmd.noConfusion h'))
    | probeCmd f t nm =>
      exact ih _ _ hns
        (execCmd_noProv s1 s2 _ h (fun d h' => Cmd.noConfusion h'))

/-- C7.  Debug-mode noninterference: the global debug-mode flag defaults to
false; no construction command other than the explicit toggle changes it;
and running any toggle-free build session with the flag on versus off
produces Blocks identical up to provenance records and bit-identical
Evaluator results on every input sequence. -/
theorem debug_mode_noninterference :
    initPState.debugMode = false
  ∧ (∀ (s : PState) (c : Cmd), (∀ d, c ≠ Cmd.setDebug d) →
      (execCmd s c).debugMode = s.debugMode)
  ∧ (∀ cmds : List Cmd, noSetDebug cmds = true →
      blockNoProv (execCmds ⟨⟨[], [], 0⟩, true⟩ cmds).block
          = blockNoProv (execCmds ⟨⟨[], [], 0⟩, false⟩ cmds).block
        ∧ ∀ (ins : List (List (String × Nat))) (regs : Nat → Nat),
            runCycles (execCmds ⟨⟨[], [], 0⟩, true⟩ cmds).block ins regs
              = runCycles (execCmds ⟨⟨[], [], 0⟩, false⟩ cmds).block ins
                  regs) := by
  refine ⟨rfl, ?_, ?_⟩
  · intro s c hc
    cases c with
    | setDebug d => exact absurd rfl (hc d)
    | newWire f wd k n =>
      show (add_wire s f wd k n).1.debugMode = s.debugMode
      unfold add_wire
      split
      · rfl
      · rfl
    | newNet op i o =>
      show (match add_net s.block op i o with
        | Except.ok b => { s with block := b }
        | Except.error _ => s).debugMode = s.debugMode
      cases add_net s.block op i o with
      | ok b => rfl
      | error e => rfl
    | probeCmd f t nm =>
      show (match s.block.wires.find? (fun (w : Wire) => w.id == t) with
        | some w =>
          { s with
              block :=
                (probeB s.block w nm (if s.debugMode then f else [])).1 }
        | none => s).debugMode = s.debugMode
      cases s.block.wires.find? (fun (w : Wire) => w.id == t) with
      | none => rfl
      | some w => rfl
  · intro cmds hns
    have hb : blockNoProv (execCmds ⟨⟨[], [], 0⟩, true⟩ cmds).block
        = blockNoProv (execCmds ⟨⟨[], [], 0⟩, false⟩ cmds).block :=
      execCmds_noProv cmds ⟨⟨[], [], 0⟩, true⟩ ⟨⟨[], [], 0⟩, false⟩ hns rfl
    exact ⟨hb, fun ins regs => runCycles_of_noProv_eq hb ins regs⟩

/-- The toggle-free build session used by the C7 witness. -/
def demoCmds : List Cmd :=
  [Cmd.newWire ["frame0"] 4 .inputK "a",
   Cmd.newWire ["frame1"] 4 .outputK "o",
   Cmd.newNet .connOp [0] 1,
   Cmd.probeCmd ["frame2"] 0 (some "p")]

/-- Witness for C7: a concrete toggle-free session built with the flag on
and with the flag off yields provenance-identical Blocks and identical
Evaluator results. -/
theorem debug_mode_noninterference_witness :
    ((∀ d, Cmd.newWire ["frame0"] 4 .inputK "a" ≠ Cmd.setDebug d)
      ∧ (execCmd initPState
          (Cmd.newWire ["frame0"] 4 .inputK "a")).debugMode
        = initPState.debugMode)
  ∧ noSetDebug demoCmds = true
  ∧ blockNoProv (execCmds ⟨⟨[], [], 0⟩, true⟩ demoCmds).block
      = blockNoProv (execCmds ⟨⟨[], [], 0⟩, false⟩ demoCmds).block
  ∧ runCycles (execCmds ⟨⟨[], [], 0⟩, true⟩ demoCmds).block [[("a", 3)]]
        (fun _ => 0)
      = runCycles (execCmds ⟨⟨[], [], 0⟩, false⟩ demoCmds).block
          [[("a", 3)]] (fun _ => 0) :=
  ⟨⟨by decide,
    debug_mode_noninterference.2.1 initPState
      (Cmd.newWire ["frame0"] 4 .inputK "a") (by decide)⟩,
   by decide,
   (debug_mode_noninterference.2.2 demoCmds (by decide)).1,
   (debug_mode_noninterference.2.2 demoCmds (by decide)).2 [[("a", 3)]]
     (fun _ => 0)⟩

end PyRTL
